import Mathlib

/-!
Verification of the commit-parsing / categorization / changelog-rendering
pipeline of the `gitt` repository (`changelog_generator.py` and `gitt_gui.py`).

Python strings are embedded as `List Char`; Python dicts with a fixed key set
are embedded as association lists in insertion order; the external
collaborators (the git subprocess output, the filesystem, the wall clock, the
`datetime.fromisoformat` library routine and the AI model) are parameters of
the embedded functions.
-/

namespace Gitt

/-- Python strings, embedded as lists of characters. -/
abbrev Str : Type := List Char

/-- Python `str.strip()`: remove leading and trailing whitespace. -/
def pyStrip (s : Str) : Str :=
  ((s.dropWhile Char.isWhitespace).reverse.dropWhile Char.isWhitespace).reverse

/-- Python `str.lower()`, character-wise lowering. -/
def pyLower (s : Str) : Str := s.map Char.toLower

/-- Python `str.replace(old, new)` for single-character arguments: replaces
every occurrence, not only the first. -/
def pyReplaceAll (old new : Char) (s : Str) : Str :=
  s.map (fun c => if c = old then new else c)

/-- Split off the part of `s` before the first occurrence of `sep`, together
with the remainder after it; `none` when `sep` does not occur. -/
def splitOnce (sep : Char) : Str → Option (Str × Str)
  | [] => none
  | c :: cs =>
    if c = sep then some ([], cs)
    else match splitOnce sep cs with
      | none => none
      | some p => some (c :: p.1, p.2)

/-- Python `s.split(sep, maxsplit)` for a single-character separator:
at most `n` splits are performed, so the result has at most `n + 1` parts
and the last part keeps any further separators. -/
def pySplitN (sep : Char) : Nat → Str → List Str
  | 0, s => [s]
  | n + 1, s =>
    match splitOnce sep s with
    | none => [s]
    | some p => p.1 :: pySplitN sep n p.2

/-- Python `'\n'.join(lines)`. -/
def joinNl : List Str → Str
  | [] => []
  | [l] => l
  | l :: l2 :: rest => l ++ '\n' :: joinNl (l2 :: rest)

/-! ## `changelog_generator.py`: `parse_commits` -/

/-- One parsed commit of `changelog_generator.py` (the dict built in
`parse_commits`). -/
structure CommitRecord where
  hash : Str
  date : Str
  author : Str
  message : Str
  type : Str
deriving DecidableEq

/-- The type-tag detection of `parse_commits` (lines 83-88): starting `[`,
first `]` at a positive index; the bracket content is lower-cased into the
type and the remainder of the message is `strip()`ed.  Returns
`(commit_type, message)`. -/
def extractType (message : Str) : Str × Str :=
  if message.head? = some '[' then
    match message.findIdx? (fun c => c = ']') with
    | some e =>
      if 0 < e then (pyLower ((message.take e).drop 1), pyStrip (message.drop (e + 1)))
      else ("other".data, message)
    | none => ("other".data, message)
  else ("other".data, message)

/-- One iteration of the `parse_commits` loop: `'|' in commit`, then
`commit.split('|', 3)` must give at least 4 parts. -/
def parseLine (commit : Str) : Option CommitRecord :=
  if ('|' : Char) ∈ commit then
    match pySplitN '|' 3 commit with
    | [h, d, a, m] =>
      some { hash := h, date := d, author := a,
             message := (extractType m).2, type := (extractType m).1 }
    | _ => none
  else none

/-- `ChangelogGenerator.parse_commits` (lines 72-98). -/
def parse_commits : List Str → List CommitRecord
  | [] => []
  | commit :: rest =>
    match parseLine commit with
    | some r => r :: parse_commits rest
    | none => parse_commits rest

/-! ## `changelog_generator.py`: `categorize_commits` -/

/-- The keys of the `categories` dict of `categorize_commits`
(lines 102-115), in insertion order. -/
def categoryKeys : List Str :=
  ["feat".data, "fix".data, "chore".data, "refactor".data, "docs".data,
   "style".data, "test".data, "perf".data, "ci".data, "build".data,
   "revert".data, "other".data]

/-- The initial `categories` dict: every key bound to an empty list. -/
def initCategories : List (Str × List CommitRecord) :=
  categoryKeys.map (fun k => (k, []))

/-- `categories[k].append(c)`. -/
def appendToBucket (cats : List (Str × List CommitRecord)) (k : Str) (c : CommitRecord) :
    List (Str × List CommitRecord) :=
  cats.map (fun p => if p.1 = k then (p.1, p.2 ++ [c]) else p)

/-- One iteration of the `categorize_commits` loop: append to the bucket of
the commit's type when that type is a key, and to `other` otherwise. -/
def addToCategories (cats : List (Str × List CommitRecord)) (c : CommitRecord) :
    List (Str × List CommitRecord) :=
  if c.type ∈ cats.map Prod.fst then appendToBucket cats c.type c
  else appendToBucket cats "other".data c

/-- `ChangelogGenerator.categorize_commits` (lines 100-124). -/
def categorize_commits (commits : List CommitRecord) : List (Str × List CommitRecord) :=
  commits.foldl addToCategories initCategories

/-- The key under which a commit is filed by `categorize_commits`. -/
def bucketKey (c : CommitRecord) : Str :=
  if c.type ∈ categoryKeys then c.type else "other".data

/-- `categorized.get(k, [])`. -/
def getBucket (cats : List (Str × List CommitRecord)) (k : Str) : List CommitRecord :=
  match cats.find? (fun p => p.1 = k) with
  | some p => p.2
  | none => []

/-! ## `changelog_generator.py`: `generate_basic_changelog` -/

/-- The bullet line `f"- {commit['message']} ([{commit['hash']}]) by {commit['author']}"`
of `generate_basic_changelog` (line 199/206). -/
def bulletLine (c : CommitRecord) : Str :=
  "- ".data ++ c.message ++ " ([".data ++ c.hash ++ "]) by ".data ++ c.author

/-- The version header of `generate_basic_changelog` (lines 173-176); `today`
embeds `datetime.now().strftime('%Y-%m-%d')`. -/
def headerLine (version : Option Str) (today : Str) : Str :=
  match version with
  | some v => "## [".data ++ v ++ "] - ".data ++ today
  | none => "## Unreleased - ".data ++ today

/-- The `category_titles` dict of `generate_basic_changelog` (lines 180-192),
in insertion order. -/
def category_titles : List (Str × Str) :=
  [("feat".data, "### ✨ Features".data),
   ("fix".data, "### 🐛 Bug Fixes".data),
   ("perf".data, "### ⚡ Performance".data),
   ("refactor".data, "### ♻️ Refactoring".data),
   ("docs".data, "### 📝 Documentation".data),
   ("style".data, "### 💄 Style".data),
   ("test".data, "### ✅ Tests".data),
   ("chore".data, "### 🔧 Chores".data),
   ("ci".data, "### 👷 CI/CD".data),
   ("build".data, "### 📦 Build".data),
   ("revert".data, "### ⏪ Reverts".data)]

/-- The lines contributed by one category: nothing when the bucket is empty,
otherwise the title, one bullet per commit, and a trailing blank line. -/
def sectionLines (title : Str) (cs : List CommitRecord) : List Str :=
  if cs = [] then [] else title :: cs.map bulletLine ++ ["".data]

/-- `ChangelogGenerator.generate_basic_changelog` (lines 166-209); the current
date is passed in as `today`. -/
def generate_basic_changelog (commits : List CommitRecord) (version : Option Str)
    (today : Str) : Str :=
  let categorized := categorize_commits commits
  let headerPart : List Str := [headerLine version today, "".data]
  let mainSections :=
    category_titles.foldl (fun acc kt => acc ++ sectionLines kt.2 (getBucket categorized kt.1)) []
  let otherSection := sectionLines "### 🔄 Other Changes".data (getBucket categorized "other".data)
  joinNl (headerPart ++ mainSections ++ otherSection)

/-! ## `changelog_generator.py`: `generate_ai_changelog` -/

/-- Outcome of one `model.generate_content` call of the external AI
collaborator: a response text, or an exception. -/
inductive AiResult where
  | ok (text : Str)
  | failed
deriving DecidableEq

/-- One line of the `commits_text` block of `generate_ai_changelog`
(line 136). -/
def commitLineAi (c : CommitRecord) : Str :=
  "- [".data ++ c.type ++ "] ".data ++ c.message ++ " (".data ++ c.hash ++ ") by ".data
    ++ c.author ++ " on ".data ++ c.date

/-- The prompt f-string of `generate_ai_changelog` (lines 140-157). -/
def aiPrompt (commits : List CommitRecord) (version : Option Str) : Str :=
  "\n        Generate a professional changelog entry from the following git commits.\n        \n        Guidelines:\n        1. Group commits by type (Features, Bug Fixes, Chores, etc.)\n        2. Use clear, user-friendly language\n        3. Focus on user-facing changes\n        4. Include commit hashes for reference\n        5. Use markdown formatting\n        6. Be concise but descriptive\n        \n        ".data
    ++ (match version with
        | some v => "Version: ".data ++ v
        | none => "".data)
    ++ "\n        \n        Commits:\n        ".data
    ++ joinNl (commits.map commitLineAi)
    ++ "\n        \n        Generate a markdown changelog entry:\n        ".data

/-- `ChangelogGenerator.generate_ai_changelog` (lines 126-164): `self.model`
is the optional AI collaborator (`none` when the dependency or the API key is
missing); an exception inside `generate_content` is the `AiResult.failed`
case.  Both degraded paths call `generate_basic_changelog`. -/
def generate_ai_changelog (model : Option (Str → AiResult)) (commits : List CommitRecord)
    (version : Option Str) (today : Str) : Str :=
  if commits = [] then "No commits found for the specified period.".data
  else
    match model with
    | none => generate_basic_changelog commits version today
    | some m =>
      match m (aiPrompt commits version) with
      | .ok t => pyStrip t
      | .failed => generate_basic_changelog commits version today

/-! ## `changelog_generator.py`: `save_changelog`

The filesystem is embedded as a partial map from path to contents; the
`except` path of the `try` block (an I/O error before anything was written)
is the `ioError` flag. -/

/-- `ChangelogGenerator.save_changelog` (lines 211-232).  Returns the updated
filesystem and the boolean return value of the Python function. -/
def save_changelog (fs : Str → Option Str) (ioError : Bool) (content : Str)
    (output_file : Str) (append : Bool) : (Str → Option Str) × Bool :=
  if ioError then (fs, false)
  else
    match append, fs output_file with
    | true, some existing =>
      ((fun p => if p = output_file then some (content ++ "\n\n".data ++ existing) else fs p),
       true)
    | _, _ =>
      ((fun p => if p = output_file then some content else fs p), true)

/-! ## `gitt_gui.py`: `get_commit_history` -/

/-- The result of `datetime.datetime.fromisoformat` followed by the tzinfo
handling: `naive` abstracts the wall-clock fields of the datetime, `tzOffset`
its tzinfo (present for an aware datetime).  `replace(tzinfo=None)` keeps the
wall-clock fields and drops the offset. -/
structure PyDateTime where
  naive : Int
  tzOffset : Option Int
deriving DecidableEq

/-- One parsed commit of `gitt_gui.py` (the dict built in
`get_commit_history`). -/
structure GuiCommit where
  hash : Str
  author : Str
  email : Str
  date : PyDateTime
  subject : Str
  body : Str
  type : Str
deriving DecidableEq

/-- The type detection of `get_commit_history` (lines 365-369): the regex
`\x5c[([^\x5c]]+)\x5c]` anchored at the start of the subject matches exactly
when the subject starts with `[` and its first `]` sits at index at least 2
(the bracket content must be non-empty); the subject itself is not modified. -/
def guiCommitType (subject : Str) : Str :=
  if subject.head? = some '[' then
    match subject.findIdx? (fun c => c = ']') with
    | some e => if 2 ≤ e then pyLower ((subject.take e).drop 1) else "other".data
    | none => "other".data
  else "other".data

/-- The date handling of `get_commit_history` (lines 371-377):
`fromisoformat(date.replace(' ', 'T'))` (every space replaced), tzinfo
stripped; any failure of the library parser falls back to
`datetime.datetime.now()`, embedded as `now`. -/
def guiParseDate (fromiso : Str → Option PyDateTime) (now : Int) (date : Str) : PyDateTime :=
  match fromiso (pyReplaceAll ' ' 'T' date) with
  | some d =>
    match d.tzOffset with
    | some _ => { naive := d.naive, tzOffset := none }
    | none => d
  | none => { naive := now, tzOffset := none }

/-- One iteration of the `get_commit_history` loop (lines 357-387):
non-blank line, `line.split('|', 5)` with at least 5 parts, optional body. -/
def guiParseLine (fromiso : Str → Option PyDateTime) (now : Int) (line : Str) :
    Option GuiCommit :=
  if pyStrip line = [] then none
  else
    match pySplitN '|' 5 line with
    | h :: a :: e :: d :: s :: restParts =>
      some { hash := h, author := a, email := e,
             date := guiParseDate fromiso now d,
             subject := s,
             body := (match restParts with | b :: _ => b | [] => "".data),
             type := guiCommitType s }
    | _ => none

/-- `GitAnalyzer.get_commit_history` (lines 345-393), over the already split
stdout lines of the git collaborator. -/
def get_commit_history (fromiso : Str → Option PyDateTime) (now : Int) :
    List Str → List GuiCommit
  | [] => []
  | line :: rest =>
    match guiParseLine fromiso now line with
    | some r => r :: get_commit_history fromiso now rest
    | none => get_commit_history fromiso now rest

/-! ## `gitt_gui.py`: `get_file_change_stats` -/

/-- Outcome of probing one path in the `try` block of `get_file_change_stats`:
the file exists with a size, does not exist, or the probe raises. -/
inductive FsProbe where
  | present (size : Nat)
  | absent
  | ioError
deriving DecidableEq

/-- One entry of the `file_stats` result list. -/
structure FileStat where
  filename : Str
  changes : Nat
  size_bytes : Nat
deriving DecidableEq

/-- `file_changes[k] += 1` on the `collections.Counter`, embedded as an
association list in first-seen key order. -/
def counterBump (items : List (Str × Nat)) (k : Str) : List (Str × Nat) :=
  if items.any (fun p => p.1 = k) then
    items.map (fun p => if p.1 = k then (p.1, p.2 + 1) else p)
  else items ++ [(k, 1)]

/-- One iteration of the counting loop (lines 452-454): blank lines are
skipped, other lines are stripped and counted. -/
def counterStep (items : List (Str × Nat)) (line : Str) : List (Str × Nat) :=
  if pyStrip line = [] then items else counterBump items (pyStrip line)

/-- The `collections.Counter` built from the `--name-only` output lines. -/
def counterItems (lines : List Str) : List (Str × Nat) :=
  lines.foldl counterStep []

/-- Descending comparison on counts, the order of `Counter.most_common`. -/
def countGE (a b : Str × Nat) : Prop := b.2 ≤ a.2

instance : DecidableRel countGE := fun a b => inferInstanceAs (Decidable (b.2 ≤ a.2))

instance : IsTotal (Str × Nat) countGE := ⟨fun a b => Nat.le_total b.2 a.2⟩

instance : IsTrans (Str × Nat) countGE := ⟨fun _ _ _ h1 h2 => Nat.le_trans h2 h1⟩

/-- `Counter.most_common(n)`: the documented behaviour of `heapq.nlargest` is
a stable descending sort by count truncated to `n` entries. -/
def mostCommon (n : Nat) (items : List (Str × Nat)) : List (Str × Nat) :=
  (List.insertionSort countGE items).take n

/-- The `try`/`except` loop body over the ranked paths (lines 458-472): an
existing file contributes its size, a vanished file contributes nothing, a
raising probe contributes a zero-size entry. -/
def fileStatLoop (fs : Str → FsProbe) : List (Str × Nat) → List FileStat
  | [] => []
  | p :: rest =>
    match fs p.1 with
    | .present n => { filename := p.1, changes := p.2, size_bytes := n } :: fileStatLoop fs rest
    | .absent => fileStatLoop fs rest
    | .ioError => { filename := p.1, changes := p.2, size_bytes := 0 } :: fileStatLoop fs rest

/-- `GitAnalyzer.get_file_change_stats` (lines 443-478), over the stdout lines
of the git collaborator and the filesystem probe. -/
def get_file_change_stats (fs : Str → FsProbe) (lines : List Str) : List FileStat :=
  fileStatLoop fs (mostCommon 20 (counterItems lines))

/-- The number of reported non-blank lines whose stripped text is `k`: the
number of commits touching path `k` in the `--name-only` listing. -/
def touchCount (lines : List Str) (k : Str) : Nat :=
  match lines with
  | [] => 0
  | l :: rest => (if pyStrip l ≠ [] ∧ pyStrip l = k then 1 else 0) + touchCount rest k

/-! ## Lemmas about the categorizer -/

theorem appendToBucket_map (acc : Str → List CommitRecord) (keys : List Str) (k : Str)
    (c : CommitRecord) :
    appendToBucket (keys.map (fun x => (x, acc x))) k c =
      keys.map (fun x => (x, if x = k then acc x ++ [c] else acc x)) := by
  unfold appendToBucket
  rw [List.map_map]
  apply List.map_congr_left
  intro x _
  by_cases h : x = k <;> simp [h]

theorem addToCategories_map (acc : Str → List CommitRecord) (c : CommitRecord) :
    addToCategories (categoryKeys.map (fun x => (x, acc x))) c =
      categoryKeys.map (fun x => (x, if x = bucketKey c then acc x ++ [c] else acc x)) := by
  unfold addToCategories bucketKey
  have hfst : (categoryKeys.map (fun x => (x, acc x))).map Prod.fst = categoryKeys := by
    rw [List.map_map]
    exact List.map_id categoryKeys
  rw [hfst]
  by_cases h : c.type ∈ categoryKeys
  · rw [if_pos h, if_pos h, appendToBucket_map]
  · rw [if_neg h, if_neg h, appendToBucket_map]

theorem foldl_addToCategories (commits : List CommitRecord) :
    ∀ acc : Str → List CommitRecord,
      List.foldl addToCategories (categoryKeys.map (fun x => (x, acc x))) commits =
        categoryKeys.map (fun x => (x, acc x ++ commits.filter (fun c => bucketKey c = x))) := by
  induction commits with
  | nil => intro acc; simp
  | cons c cs ih =>
    intro acc
    rw [List.foldl_cons, addToCategories_map,
      ih (fun x => if x = bucketKey c then acc x ++ [c] else acc x)]
    apply List.map_congr_left
    intro x _
    by_cases h : bucketKey c = x
    · subst h; simp [List.filter_cons]
    · have h2 : ¬(x = bucketKey c) := fun e => h e.symm
      simp [List.filter_cons, h, h2]

/-- `categorize_commits` is the per-key stable filter of its input. -/
theorem categorize_commits_eq (commits : List CommitRecord) :
    categorize_commits commits =
      categoryKeys.map (fun k => (k, commits.filter (fun c => bucketKey c = k))) := by
  have h := foldl_addToCategories commits (fun _ => [])
  simpa [categorize_commits, initCategories] using h

theorem sum_map_add {β : Type} (l : List β) (f g : β → Nat) :
    (l.map (fun k => f k + g k)).sum = (l.map f).sum + (l.map g).sum := by
  induction l with
  | nil => simp
  | cons b bs ih => simp only [List.map_cons, List.sum_cons, ih]; omega

theorem sum_map_indicator_zero {β : Type} [DecidableEq β] (x : β) :
    ∀ keys : List β, x ∉ keys →
      (keys.map (fun k => if x = k then (1 : Nat) else 0)).sum = 0 := by
  intro keys
  induction keys with
  | nil => intro _; simp
  | cons k ks ih =>
    intro h
    simp only [List.map_cons, List.sum_cons]
    have hne : x ≠ k := fun e => h (e ▸ List.mem_cons_self k ks)
    rw [if_neg hne, ih (fun m => h (List.mem_cons_of_mem k m))]

theorem sum_map_indicator_one {β : Type} [DecidableEq β] (x : β) :
    ∀ keys : List β, keys.Nodup → x ∈ keys →
      (keys.map (fun k => if x = k then (1 : Nat) else 0)).sum = 1 := by
  intro keys
  induction keys with
  | nil => intro _ hx; cases hx
  | cons k ks ih =>
    intro hnd hx
    simp only [List.map_cons, List.sum_cons]
    by_cases he : x = k
    · subst he
      rw [if_pos rfl, sum_map_indicator_zero x ks (List.nodup_cons.mp hnd).1]
    · rw [if_neg he, ih (List.nodup_cons.mp hnd).2 ((List.mem_cons.mp hx).resolve_left he)]

theorem sum_filter_lengths {α β : Type} [DecidableEq β] (keyOf : α → β) :
    ∀ (cs : List α) (keys : List β), keys.Nodup → (∀ c ∈ cs, keyOf c ∈ keys) →
      (keys.map (fun k => (cs.filter (fun c => keyOf c = k)).length)).sum = cs.length := by
  intro cs
  induction cs with
  | nil => intro keys _ _; simp
  | cons c cs ih =>
    intro keys hnd hmem
    have step : keys.map (fun k => ((c :: cs).filter (fun c' => keyOf c' = k)).length) =
        keys.map (fun k =>
          (if keyOf c = k then (1 : Nat) else 0) +
            (cs.filter (fun c' => keyOf c' = k)).length) := by
      apply List.map_congr_left
      intro k _
      rw [List.filter_cons]
      by_cases h : keyOf c = k
      · simp [h]; omega
      · simp [h]
    rw [step, sum_map_add, sum_map_indicator_one (keyOf c) keys hnd (hmem c (List.mem_cons_self c cs)),
      ih keys hnd (fun x hx => hmem x (List.mem_cons_of_mem c hx))]
    simp [Nat.add_comm]

theorem getBucket_map (f : Str → List CommitRecord) (k : Str) :
    ∀ keys : List Str, k ∈ keys →
      getBucket (keys.map (fun x => (x, f x))) k = f k := by
  intro keys
  induction keys with
  | nil => intro h; cases h
  | cons k0 ks ih =>
    intro hk
    unfold getBucket
    by_cases h : k0 = k
    · subst h
      rw [List.map_cons, List.find?_cons_of_pos _ (by simp)]
    · rw [List.map_cons, List.find?_cons_of_neg _ (by simp [h])]
      exact ih ((List.mem_cons.mp hk).resolve_left (fun e => h e.symm))

/-- The bucket a commit lands in always exists among the fixed keys. -/
theorem bucketKey_mem (c : CommitRecord) : bucketKey c ∈ categoryKeys := by
  unfold bucketKey
  by_cases h : c.type ∈ categoryKeys
  · rw [if_pos h]; exact h
  · rw [if_neg h]; decide

/-- **C3.** `categorize_commits` yields the fixed ordered bucket set and
partitions its input completely: each bucket is exactly the sub-sequence of
input records whose (defaulted) key equals that bucket's key, in arrival
order, and the bucket sizes sum to the input length.  A record whose `type`
is not a known key has `bucketKey` equal to `"other"` and therefore lands in
the `"other"` bucket. -/
theorem categorize_commits_partitions (commits : List CommitRecord) :
    categorize_commits commits =
      categoryKeys.map (fun k => (k, commits.filter (fun c => bucketKey c = k)))
    ∧ ((categorize_commits commits).map (fun p => p.2.length)).sum = commits.length := by
  refine ⟨categorize_commits_eq commits, ?_⟩
  rw [categorize_commits_eq, List.map_map]
  have hnd : categoryKeys.Nodup := by decide
  exact sum_filter_lengths bucketKey commits categoryKeys hnd (fun c _ => bucketKey_mem c)

/-! ## Lemmas about the basic renderer -/

theorem foldl_append_join {α : Type} (g : α → List Str) (l : List α) :
    ∀ acc : List Str, l.foldl (fun a kt => a ++ g kt) acc = acc ++ (l.map g).flatten := by
  induction l with
  | nil => intro acc; simp
  | cons x xs ih => intro acc; simp [ih, List.append_assoc]

/-- The section order actually used by `generate_basic_changelog`: the
insertion order of `category_titles` followed by the `other` block. -/
def renderSections : List (Str × Str) :=
  category_titles ++ [("other".data, "### 🔄 Other Changes".data)]

/-- The layout of the rendered basic changelog, with each bucket replaced by
the corresponding stable filter of the input. -/
theorem generate_basic_changelog_eq (commits : List CommitRecord) (version : Option Str)
    (today : Str) :
    generate_basic_changelog commits version today =
      joinNl (headerLine version today :: "".data ::
        (renderSections.map (fun kt =>
          sectionLines kt.2 (commits.filter (fun c => bucketKey c = kt.1)))).flatten) := by
  unfold generate_basic_changelog
  dsimp only
  rw [foldl_append_join]
  have hkeys : ∀ kt ∈ renderSections, kt.1 ∈ categoryKeys := by decide
  have hget : ∀ kt ∈ renderSections,
      getBucket (categorize_commits commits) kt.1 =
        commits.filter (fun c => bucketKey c = kt.1) := by
    intro kt hmem
    rw [categorize_commits_eq]
    exact getBucket_map _ _ _ (hkeys kt hmem)
  have hmain : category_titles.map
        (fun kt => sectionLines kt.2 (getBucket (categorize_commits commits) kt.1)) =
      category_titles.map
        (fun kt => sectionLines kt.2 (commits.filter (fun c => bucketKey c = kt.1))) := by
    apply List.map_congr_left
    intro kt hmem
    rw [hget kt (List.mem_append_left _ hmem)]
  have hother : getBucket (categorize_commits commits) "other".data =
      commits.filter (fun c => bucketKey c = "other".data) :=
    hget ("other".data, "### 🔄 Other Changes".data) (by decide)
  rw [List.nil_append, hmain, hother]
  unfold renderSections
  rw [List.map_append, List.flatten_append]
  simp

/-! ## Lemmas about splitting and stripping -/

theorem splitOnce_eq_none {sep : Char} :
    ∀ s : Str, sep ∉ s → splitOnce sep s = none := by
  intro s
  induction s with
  | nil => intro _; rfl
  | cons c cs ih =>
    intro h
    have hc : ¬(c = sep) := fun e => h (e ▸ List.mem_cons_self c cs)
    simp [splitOnce, hc, ih (fun m => h (List.mem_cons_of_mem c m))]

theorem splitOnce_append {sep : Char} :
    ∀ a rest : Str, sep ∉ a → splitOnce sep (a ++ sep :: rest) = some (a, rest) := by
  intro a
  induction a with
  | nil => intro rest _; simp [splitOnce]
  | cons c cs ih =>
    intro rest h
    have hc : ¬(c = sep) := fun e => h (e ▸ List.mem_cons_self c cs)
    simp [splitOnce, hc, ih rest (fun m => h (List.mem_cons_of_mem c m))]

theorem pySplitN_not_mem {sep : Char} (n : Nat) (s : Str) (h : sep ∉ s) :
    pySplitN sep n s = [s] := by
  cases n with
  | zero => rfl
  | succ n => simp [pySplitN, splitOnce_eq_none s h]

theorem pySplitN_append {sep : Char} (n : Nat) (a rest : Str) (h : sep ∉ a) :
    pySplitN sep (n + 1) (a ++ sep :: rest) = a :: pySplitN sep n rest := by
  simp [pySplitN, splitOnce_append a rest h]

theorem mem_dropWhile_of_neg {p : Char → Bool} {c : Char} (hc : p c = false) :
    ∀ s : Str, c ∈ s → c ∈ s.dropWhile p := by
  intro s
  induction s with
  | nil => intro h; cases h
  | cons x xs ih =>
    intro h
    rw [List.dropWhile_cons]
    by_cases hx : p x = true
    · rw [if_pos hx]
      rcases List.mem_cons.mp h with he | hm
      · rw [he] at hc; rw [hc] at hx; cases hx
      · exact ih hm
    · rw [if_neg hx]; exact h

theorem pyStrip_ne_nil_of_mem {c : Char} (hc : c.isWhitespace = false) (s : Str)
    (hm : c ∈ s) : pyStrip s ≠ [] := by
  unfold pyStrip
  intro hemp
  have h4 : c ∈ ((s.dropWhile Char.isWhitespace).reverse.dropWhile Char.isWhitespace).reverse :=
    List.mem_reverse.mpr
      (mem_dropWhile_of_neg hc _ (List.mem_reverse.mpr (mem_dropWhile_of_neg hc s hm)))
  rw [hemp] at h4
  cases h4

theorem pyStrip_cons_space (s : Str) : pyStrip (' ' :: s) = pyStrip s := by
  unfold pyStrip
  rw [List.dropWhile_cons, if_pos (by decide)]

/-! ## Lemmas about type-tag extraction -/

theorem findIdx?_bracket {p : Char → Bool} (pre rest : Str) (x : Char)
    (hpre : ∀ c ∈ pre, p c = false) (hx : p x = true) :
    List.findIdx? p (pre ++ x :: rest) = some pre.length := by
  rw [List.findIdx?_append, List.findIdx?_eq_none_iff.mpr hpre, Option.none_or,
    List.findIdx?_cons, if_pos hx]
  simp

theorem extractType_bracket (tag rest : Str) (ht : (']' : Char) ∉ tag) :
    extractType ('[' :: (tag ++ ']' :: rest)) = (pyLower tag, pyStrip rest) := by
  unfold extractType
  rw [List.head?_cons, if_pos rfl]
  have hpre : ∀ c ∈ '[' :: tag, (fun c => decide (c = ']')) c = false := by
    intro c hcm
    rcases List.mem_cons.mp hcm with he | hm
    · rw [he]; decide
    · simp only [decide_eq_false_iff_not]
      exact fun e => ht (e ▸ hm)
  have hfind : List.findIdx? (fun c => decide (c = ']')) ('[' :: (tag ++ ']' :: rest)) =
      some (tag.length + 1) := by
    have h1 : '[' :: (tag ++ ']' :: rest) = ('[' :: tag) ++ ']' :: rest := by simp
    rw [h1, findIdx?_bracket ('[' :: tag) rest ']' hpre (by decide), List.length_cons]
  rw [hfind]
  dsimp only
  have hpos : 0 < tag.length + 1 := Nat.succ_pos _
  rw [if_pos hpos]
  have htake : ('[' :: (tag ++ ']' :: rest)).take (tag.length + 1) = '[' :: tag := by
    have h1 : '[' :: (tag ++ ']' :: rest) = ('[' :: tag) ++ ']' :: rest := by simp
    rw [h1]
    exact List.take_left' (by rw [List.length_cons])
  have hdrop : ('[' :: (tag ++ ']' :: rest)).drop (tag.length + 1 + 1) = rest := by
    have h1 : '[' :: (tag ++ ']' :: rest) = (('[' :: tag) ++ [']']) ++ rest := by simp
    rw [h1]
    exact List.drop_left' (by simp)
  rw [htake, hdrop]
  rfl

theorem extractType_no_open (s : Str) (h : s.head? ≠ some '[') :
    extractType s = ("other".data, s) := by
  unfold extractType
  rw [if_neg h]

theorem extractType_no_close (s : Str) (h : (']' : Char) ∉ s) :
    extractType s = ("other".data, s) := by
  unfold extractType
  have hfind : List.findIdx? (fun c => decide (c = ']')) s = none := by
    rw [List.findIdx?_eq_none_iff]
    intro c hcm
    simp only [decide_eq_false_iff_not]
    exact fun e => h (e ▸ hcm)
  by_cases hh : s.head? = some '['
  · rw [if_pos hh, hfind]
  · rw [if_neg hh]

theorem guiCommitType_bracket (tag rest : Str) (ht : (']' : Char) ∉ tag) (hne : tag ≠ []) :
    guiCommitType ('[' :: (tag ++ ']' :: rest)) = pyLower tag := by
  unfold guiCommitType
  rw [List.head?_cons, if_pos rfl]
  have hpre : ∀ c ∈ '[' :: tag, (fun c => decide (c = ']')) c = false := by
    intro c hcm
    rcases List.mem_cons.mp hcm with he | hm
    · rw [he]; decide
    · simp only [decide_eq_false_iff_not]
      exact fun e => ht (e ▸ hm)
  have hfind : List.findIdx? (fun c => decide (c = ']')) ('[' :: (tag ++ ']' :: rest)) =
      some (tag.length + 1) := by
    have h1 : '[' :: (tag ++ ']' :: rest) = ('[' :: tag) ++ ']' :: rest := by simp
    rw [h1, findIdx?_bracket ('[' :: tag) rest ']' hpre (by decide), List.length_cons]
  rw [hfind]
  dsimp only
  have hge : 2 ≤ tag.length + 1 := by
    have : 0 < tag.length := List.length_pos.mpr hne
    omega
  rw [if_pos hge]
  have htake : ('[' :: (tag ++ ']' :: rest)).take (tag.length + 1) = '[' :: tag := by
    have h1 : '[' :: (tag ++ ']' :: rest) = ('[' :: tag) ++ ']' :: rest := by simp
    rw [h1]
    exact List.take_left' (by rw [List.length_cons])
  rw [htake]
  rfl

theorem guiCommitType_no_open (s : Str) (h : s.head? ≠ some '[') :
    guiCommitType s = "other".data := by
  unfold guiCommitType
  rw [if_neg h]

theorem guiCommitType_no_close (s : Str) (h : (']' : Char) ∉ s) :
    guiCommitType s = "other".data := by
  unfold guiCommitType
  have hfind : List.findIdx? (fun c => decide (c = ']')) s = none := by
    rw [List.findIdx?_eq_none_iff]
    intro c hcm
    simp only [decide_eq_false_iff_not]
    exact fun e => h (e ▸ hcm)
  by_cases hh : s.head? = some '['
  · rw [if_pos hh, hfind]
  · rw [if_neg hh]

/-! ## Lemmas about the two line parsers -/

theorem parse_commits_cons (line : Str) (rest : List Str) :
    parse_commits (line :: rest) =
      match parseLine line with
      | some r => r :: parse_commits rest
      | none => parse_commits rest := rfl

theorem parseLine_fields (h d a m : Str) (hh : ('|' : Char) ∉ h) (hd : ('|' : Char) ∉ d)
    (ha : ('|' : Char) ∉ a) :
    parseLine (h ++ '|' :: (d ++ '|' :: (a ++ '|' :: m))) =
      some ⟨h, d, a, (extractType m).2, (extractType m).1⟩ := by
  have hmem : ('|' : Char) ∈ h ++ '|' :: (d ++ '|' :: (a ++ '|' :: m)) :=
    List.mem_append_right _ (List.mem_cons_self _ _)
  have hsplit : pySplitN '|' 3 (h ++ '|' :: (d ++ '|' :: (a ++ '|' :: m))) = [h, d, a, m] := by
    rw [pySplitN_append 2 h _ hh, pySplitN_append 1 d _ hd, pySplitN_append 0 a _ ha]
    rfl
  unfold parseLine
  rw [if_pos hmem, hsplit]

theorem parseLine_short (line : Str) (hlen : (pySplitN '|' 3 line).length < 4) :
    parseLine line = none := by
  unfold parseLine
  by_cases hm : ('|' : Char) ∈ line
  · rw [if_pos hm]
    rcases hsp : pySplitN '|' 3 line with _ | ⟨p1, _ | ⟨p2, _ | ⟨p3, _ | ⟨p4, t⟩⟩⟩⟩ <;>
      first
      | rfl
      | (rw [hsp] at hlen; simp only [List.length_cons] at hlen; omega)
  · rw [if_neg hm]

theorem parse_commits_append (l1 l2 : List Str) :
    parse_commits (l1 ++ l2) = parse_commits l1 ++ parse_commits l2 := by
  induction l1 with
  | nil => rfl
  | cons x xs ih =>
    rw [List.cons_append, parse_commits_cons, parse_commits_cons]
    cases parseLine x <;> simp [ih]

theorem get_commit_history_cons (fromiso : Str → Option PyDateTime) (now : Int)
    (line : Str) (rest : List Str) :
    get_commit_history fromiso now (line :: rest) =
      match guiParseLine fromiso now line with
      | some r => r :: get_commit_history fromiso now rest
      | none => get_commit_history fromiso now rest := rfl

theorem guiParseLine_fields (fromiso : Str → Option PyDateTime) (now : Int)
    (h a e d s b : Str) (hh : ('|' : Char) ∉ h) (ha : ('|' : Char) ∉ a)
    (he : ('|' : Char) ∉ e) (hd : ('|' : Char) ∉ d) (hs : ('|' : Char) ∉ s) :
    guiParseLine fromiso now
        (h ++ '|' :: (a ++ '|' :: (e ++ '|' :: (d ++ '|' :: (s ++ '|' :: b))))) =
      some ⟨h, a, e, guiParseDate fromiso now d, s, b, guiCommitType s⟩ := by
  have hnb : pyStrip (h ++ '|' :: (a ++ '|' :: (e ++ '|' :: (d ++ '|' :: (s ++ '|' :: b))))) ≠
      [] :=
    pyStrip_ne_nil_of_mem (by decide) _ (List.mem_append_right _ (List.mem_cons_self _ _))
  have hsplit : pySplitN '|' 5
      (h ++ '|' :: (a ++ '|' :: (e ++ '|' :: (d ++ '|' :: (s ++ '|' :: b))))) =
      [h, a, e, d, s, b] := by
    rw [pySplitN_append 4 h _ hh, pySplitN_append 3 a _ ha, pySplitN_append 2 e _ he,
      pySplitN_append 1 d _ hd, pySplitN_append 0 s _ hs]
    rfl
  unfold guiParseLine
  rw [if_neg hnb, hsplit]

theorem guiParseLine_fields5 (fromiso : Str → Option PyDateTime) (now : Int)
    (h a e d s : Str) (hh : ('|' : Char) ∉ h) (ha : ('|' : Char) ∉ a)
    (he : ('|' : Char) ∉ e) (hd : ('|' : Char) ∉ d) (hs : ('|' : Char) ∉ s) :
    guiParseLine fromiso now (h ++ '|' :: (a ++ '|' :: (e ++ '|' :: (d ++ '|' :: s)))) =
      some ⟨h, a, e, guiParseDate fromiso now d, s, "".data, guiCommitType s⟩ := by
  have hnb : pyStrip (h ++ '|' :: (a ++ '|' :: (e ++ '|' :: (d ++ '|' :: s)))) ≠ [] :=
    pyStrip_ne_nil_of_mem (by decide) _ (List.mem_append_right _ (List.mem_cons_self _ _))
  have hsplit : pySplitN '|' 5 (h ++ '|' :: (a ++ '|' :: (e ++ '|' :: (d ++ '|' :: s)))) =
      [h, a, e, d, s] := by
    rw [pySplitN_append 4 h _ hh, pySplitN_append 3 a _ ha, pySplitN_append 2 e _ he,
      pySplitN_append 1 d _ hd, pySplitN_not_mem 1 s hs]
  unfold guiParseLine
  rw [if_neg hnb, hsplit]

theorem guiParseLine_short (fromiso : Str → Option PyDateTime) (now : Int) (line : Str)
    (hlen : (pySplitN '|' 5 line).length < 5) :
    guiParseLine fromiso now line = none := by
  unfold guiParseLine
  by_cases hb : pyStrip line = []
  · rw [if_pos hb]
  · rw [if_neg hb]
    rcases hsp : pySplitN '|' 5 line with _ | ⟨p1, _ | ⟨p2, _ | ⟨p3, _ | ⟨p4, _ | ⟨p5, t⟩⟩⟩⟩⟩ <;>
      first
      | rfl
      | (rw [hsp] at hlen; simp only [List.length_cons] at hlen; omega)

theorem get_commit_history_append (fromiso : Str → Option PyDateTime) (now : Int)
    (l1 l2 : List Str) :
    get_commit_history fromiso now (l1 ++ l2) =
      get_commit_history fromiso now l1 ++ get_commit_history fromiso now l2 := by
  induction l1 with
  | nil => rfl
  | cons x xs ih =>
    rw [List.cons_append, get_commit_history_cons, get_commit_history_cons]
    cases guiParseLine fromiso now x <;> simp [ih]

theorem map_eq_self_of {f : Char → Char} :
    ∀ s : Str, (∀ c ∈ s, f c = c) → s.map f = s := by
  intro s
  induction s with
  | nil => intro _; rfl
  | cons x xs ih =>
    intro h
    rw [List.map_cons, h x (List.mem_cons_self x xs),
      ih (fun c hc => h c (List.mem_cons_of_mem x hc))]

/-! ## Claim theorems -/

/-- **C1 (amended/corrected).** For a subject `[tag] rest` with non-empty
bracket content and `rest` free of surrounding whitespace, the changelog
parser's extraction yields type `tag.lower()` and subject `rest` (bracket
prefix and the space removed), and the GUI parser extracts the same type but
— unlike the claim — leaves the subject unchanged (shown by the separate
counterexample); for a subject with no leading `[` or no closing `]`, both
parsers keep type `"other"` and the subject unchanged. -/
theorem type_tag_extraction (tag rest : Str) (h1 : (']' : Char) ∉ tag)
    (h2 : tag ≠ []) (h3 : pyStrip rest = rest) :
    extractType ('[' :: (tag ++ ']' :: (' ' :: rest))) = (pyLower tag, rest)
    ∧ guiCommitType ('[' :: (tag ++ ']' :: (' ' :: rest))) = pyLower tag
    ∧ (∀ s : Str, s.head? ≠ some '[' →
        extractType s = ("other".data, s) ∧ guiCommitType s = "other".data)
    ∧ (∀ s : Str, (']' : Char) ∉ s →
        extractType s = ("other".data, s) ∧ guiCommitType s = "other".data) := by
  refine ⟨?_, guiCommitType_bracket tag (' ' :: rest) h1 h2, ?_, ?_⟩
  · rw [extractType_bracket tag (' ' :: rest) h1, pyStrip_cons_space, h3]
  · intro s hs
    exact ⟨extractType_no_open s hs, guiCommitType_no_open s hs⟩
  · intro s hs
    exact ⟨extractType_no_close s hs, guiCommitType_no_close s hs⟩

/-- **C1 (counterexample).** The GUI history parser stores the subject of
`[feat] add login` verbatim, bracket prefix included — not `add login` as the
claim states for both parsers. -/
theorem gui_subject_not_stripped_counterexample :
    get_commit_history (fun _ => none) 0
        ["h|Alice|a@b|2024-01-01|[feat] add login".data] =
      [⟨"h".data, "Alice".data, "a@b".data, ⟨0, none⟩, "[feat] add login".data, "".data,
        "feat".data⟩]
    ∧ "[feat] add login".data ≠ "add login".data := by
  constructor
  · decide
  · decide

/-- **C10.** A subject starting with the empty bracket pair `[]` gets the
empty string as its type in `parse_commits` — not `"other"` — with brackets
and surrounding whitespace stripped from the subject, and the empty string is
not a known category key, so the categorizer routes such a record to the
`"other"` bucket. -/
theorem empty_bracket_type (rest : Str) (c : CommitRecord) (hc : c.type = []) :
    extractType ('[' :: ']' :: rest) = ([], pyStrip rest)
    ∧ ([] : Str) ≠ "other".data
    ∧ bucketKey c = "other".data
    ∧ getBucket (categorize_commits [c]) "other".data = [c] := by
  have hb : bucketKey c = "other".data := by
    unfold bucketKey
    rw [hc, if_neg (by decide)]
  refine ⟨?_, by decide, hb, ?_⟩
  · exact extractType_bracket [] rest (by simp)
  · rw [categorize_commits_eq, getBucket_map _ _ categoryKeys (by decide)]
    simp [List.filter_cons, hb]

/-- **C6.** Both parsers emit exactly one record per delimiter-joined line
with at least the minimum field count (4 short-form fields for
`parse_commits`, 5 long-form fields plus optional body for
`get_commit_history`), with every string field the split substring verbatim
(the changelog message after tag extraction, the GUI date after date
parsing); a line with fewer fields is silently dropped, parsing distributes
over concatenation, and empty input yields empty output. -/
theorem parser_field_splitting :
    (∀ h d a m : Str, ('|' : Char) ∉ h → ('|' : Char) ∉ d → ('|' : Char) ∉ a →
        parse_commits [h ++ '|' :: (d ++ '|' :: (a ++ '|' :: m))] =
          [⟨h, d, a, (extractType m).2, (extractType m).1⟩])
    ∧ (∀ line : Str, (pySplitN '|' 3 line).length < 4 → parse_commits [line] = [])
    ∧ parse_commits [] = []
    ∧ (∀ l1 l2 : List Str, parse_commits (l1 ++ l2) = parse_commits l1 ++ parse_commits l2)
    ∧ (∀ (fromiso : Str → Option PyDateTime) (now : Int) (h a e d s b : Str),
        ('|' : Char) ∉ h → ('|' : Char) ∉ a → ('|' : Char) ∉ e → ('|' : Char) ∉ d →
        ('|' : Char) ∉ s →
        get_commit_history fromiso now
            [h ++ '|' :: (a ++ '|' :: (e ++ '|' :: (d ++ '|' :: (s ++ '|' :: b))))] =
          [⟨h, a, e, guiParseDate fromiso now d, s, b, guiCommitType s⟩])
    ∧ (∀ (fromiso : Str → Option PyDateTime) (now : Int) (line : Str),
        (pySplitN '|' 5 line).length < 5 → get_commit_history fromiso now [line] = [])
    ∧ (∀ (fromiso : Str → Option PyDateTime) (now : Int),
        get_commit_history fromiso now [] = [])
    ∧ (∀ (fromiso : Str → Option PyDateTime) (now : Int) (l1 l2 : List Str),
        get_commit_history fromiso now (l1 ++ l2) =
          get_commit_history fromiso now l1 ++ get_commit_history fromiso now l2) := by
  refine ⟨?_, ?_, rfl, parse_commits_append, ?_, ?_, fun _ _ => rfl,
    get_commit_history_append⟩
  · intro h d a m hh hd ha
    rw [parse_commits_cons, parseLine_fields h d a m hh hd ha]
    rfl
  · intro line hlen
    rw [parse_commits_cons, parseLine_short line hlen]
    rfl
  · intro fromiso now h a e d s b hh ha he hd hs
    rw [get_commit_history_cons, guiParseLine_fields fromiso now h a e d s b hh ha he hd hs]
    rfl
  · intro fromiso now line hlen
    rw [get_commit_history_cons, guiParseLine_short fromiso now line hlen]
    rfl

/-- **C4.** A GUI history line with the minimum field count always yields
exactly one record whatever its date field holds; the date is obtained by
handing the field — with its spaces turned into the `T` separator, which for
a field with a single embedded space is exactly that one space — to the
external ISO-8601 parser, stripping any timezone offset from a successful
parse, and substituting the current wall-clock time `now` on any parse
failure. -/
theorem gui_date_parsing (fromiso : Str → Option PyDateTime) (now : Int)
    (h a e d s : Str) (hh : ('|' : Char) ∉ h) (ha : ('|' : Char) ∉ a)
    (he : ('|' : Char) ∉ e) (hd : ('|' : Char) ∉ d) (hs : ('|' : Char) ∉ s) :
    get_commit_history fromiso now
        [h ++ '|' :: (a ++ '|' :: (e ++ '|' :: (d ++ '|' :: s)))] =
      [⟨h, a, e, guiParseDate fromiso now d, s, "".data, guiCommitType s⟩]
    ∧ (fromiso (pyReplaceAll ' ' 'T' d) = none →
        guiParseDate fromiso now d = ⟨now, none⟩)
    ∧ (∀ dt : PyDateTime, fromiso (pyReplaceAll ' ' 'T' d) = some dt →
        guiParseDate fromiso now d = ⟨dt.naive, none⟩)
    ∧ (∀ d1 d2 : Str, d = d1 ++ ' ' :: d2 → (' ' : Char) ∉ d1 → (' ' : Char) ∉ d2 →
        pyReplaceAll ' ' 'T' d = d1 ++ 'T' :: d2) := by
  refine ⟨?_, ?_, ?_, ?_⟩
  · rw [get_commit_history_cons, guiParseLine_fields5 fromiso now h a e d s hh ha he hd hs]
    rfl
  · intro hfail
    unfold guiParseDate
    rw [hfail]
  · intro dt hdt
    unfold guiParseDate
    rw [hdt]
    rcases dt with ⟨nv, tz⟩
    cases tz <;> rfl
  · intro d1 d2 hd12 h1 h2
    subst hd12
    unfold pyReplaceAll
    have hm1 : d1.map (fun c => if c = ' ' then 'T' else c) = d1 :=
      map_eq_self_of d1 (fun c hc => by
        have hcne : ¬(c = ' ') := fun e => h1 (by rwa [e] at hc)
        rw [if_neg hcne])
    have hm2 : d2.map (fun c => if c = ' ' then 'T' else c) = d2 :=
      map_eq_self_of d2 (fun c hc => by
        have hcne : ¬(c = ' ') := fun e => h2 (by rwa [e] at hc)
        rw [if_neg hcne])
    rw [List.map_append, List.map_cons, if_pos rfl, hm1, hm2]

/-- **C7.** The basic changelog renderer is deterministic — identical
categorized input and frozen clock give byte-identical Markdown — and total:
its output always starts with the header line naming the version (or
`Unreleased`) and the date, even when every category is empty, in which case
the output is exactly the header plus the blank separator line. -/
theorem basic_changelog_deterministic (c1 c2 : List CommitRecord) (v1 v2 : Option Str)
    (t1 t2 : Str) (hc : c1 = c2) (hv : v1 = v2) (ht : t1 = t2) :
    generate_basic_changelog c1 v1 t1 = generate_basic_changelog c2 v2 t2
    ∧ (∃ rest : Str, generate_basic_changelog c1 v1 t1 = headerLine v1 t1 ++ '\n' :: rest)
    ∧ generate_basic_changelog [] none "2026-10-12".data =
        "## Unreleased - 2026-10-12\n".data := by
  subst hc; subst hv; subst ht
  refine ⟨rfl, ?_, by decide⟩
  rw [generate_basic_changelog_eq]
  exact ⟨_, rfl⟩

/-- **C8.** For a non-empty commit list, any AI-collaborator failure — the
model unavailable, or the generation call raising — makes
`generate_ai_changelog` return the basic changelog for the same commits and
version; the error is never propagated. -/
theorem ai_changelog_fallback (commits : List CommitRecord) (version : Option Str)
    (today : Str) (hne : commits ≠ []) :
    generate_ai_changelog none commits version today =
      generate_basic_changelog commits version today
    ∧ (∀ m : Str → AiResult, m (aiPrompt commits version) = AiResult.failed →
        generate_ai_changelog (some m) commits version today =
          generate_basic_changelog commits version today) := by
  constructor
  · unfold generate_ai_changelog
    rw [if_neg hne]
  · intro m hm
    unfold generate_ai_changelog
    rw [if_neg hne]
    dsimp only
    rw [hm]

/-- **C9.** `save_changelog` in append mode over an existing file prepends:
the saved file is the new content, a blank-line separator, then the previous
content byte-for-byte, returning `True`; without an existing file the saved
file is exactly the new content; every other path is untouched; an I/O
failure returns `False` and leaves the filesystem unchanged. -/
theorem save_changelog_spec (fs : Str → Option Str) (content output_file p : Str)
    (append : Bool) (existing : Str) :
    (fs output_file = some existing →
      (save_changelog fs false content output_file true).1 output_file =
          some (content ++ "\n\n".data ++ existing)
        ∧ (save_changelog fs false content output_file true).2 = true)
    ∧ (fs output_file = none →
        (save_changelog fs false content output_file append).1 output_file = some content
          ∧ (save_changelog fs false content output_file append).2 = true)
    ∧ (p ≠ output_file →
        (save_changelog fs false content output_file append).1 p = fs p)
    ∧ save_changelog fs true content output_file append = (fs, false) := by
  refine ⟨?_, ?_, ?_, rfl⟩
  · intro hex
    unfold save_changelog
    rw [if_neg Bool.false_ne_true, hex]
    exact ⟨by simp, rfl⟩
  · intro hnone
    unfold save_changelog
    rw [if_neg Bool.false_ne_true, hnone]
    cases append
    · exact ⟨by simp, rfl⟩
    · exact ⟨by simp, rfl⟩
  · intro hp
    unfold save_changelog
    rw [if_neg Bool.false_ne_true]
    cases append
    · cases fs output_file
      · simp [hp]
      · simp [hp]
    · cases fs output_file
      · simp [hp]
      · simp [hp]

/-- Modelled from the wording of the claim under test: the identical
rendering, but with the sections in the §3 bucket order — features, fixes,
chores, refactors, docs, style, tests, performance, CI, build, reverts,
other — instead of the renderer's title order. -/
def claimOrderTitles : List (Str × Str) :=
  [("feat".data, "### ✨ Features".data),
   ("fix".data, "### 🐛 Bug Fixes".data),
   ("chore".data, "### 🔧 Chores".data),
   ("refactor".data, "### ♻️ Refactoring".data),
   ("docs".data, "### 📝 Documentation".data),
   ("style".data, "### 💄 Style".data),
   ("test".data, "### ✅ Tests".data),
   ("perf".data, "### ⚡ Performance".data),
   ("ci".data, "### 👷 CI/CD".data),
   ("build".data, "### 📦 Build".data),
   ("revert".data, "### ⏪ Reverts".data),
   ("other".data, "### 🔄 Other Changes".data)]

/-- Modelled from the wording of the claim under test: the basic changelog
with its sections in the fixed §3 category order. -/
def claimOrderChangelog (commits : List CommitRecord) (version : Option Str)
    (today : Str) : Str :=
  joinNl (headerLine version today :: "".data ::
    (claimOrderTitles.map (fun kt =>
      sectionLines kt.2 (commits.filter (fun c => bucketKey c = kt.1)))).flatten)

/-- **C2 (counterexample).** For one chore commit and one performance commit,
the renderer emits the Performance section *before* the Chores section —
`category_titles` iterates feat, fix, perf, …, chore, … — so the output
differs from the §3 order (features, fixes, chores, …, performance, …) that
the claim asserts. -/
theorem changelog_section_order_counterexample :
    generate_basic_changelog
        [⟨"h1".data, "d".data, "A".data, "clean".data, "chore".data⟩,
         ⟨"h2".data, "d".data, "B".data, "speed".data, "perf".data⟩]
        none "2026-10-12".data =
      "## Unreleased - 2026-10-12\n\n### ⚡ Performance\n- speed ([h2]) by B\n\n### 🔧 Chores\n- clean ([h1]) by A\n".data
    ∧ generate_basic_changelog
        [⟨"h1".data, "d".data, "A".data, "clean".data, "chore".data⟩,
         ⟨"h2".data, "d".data, "B".data, "speed".data, "perf".data⟩]
        none "2026-10-12".data ≠
      claimOrderChangelog
        [⟨"h1".data, "d".data, "A".data, "clean".data, "chore".data⟩,
         ⟨"h2".data, "d".data, "B".data, "speed".data, "perf".data⟩]
        none "2026-10-12".data := by
  constructor
  · decide
  · decide

/-! ## Lemmas about the file-change counter -/

/-- `counter[k]` as an optional value: the count stored under the first
occurrence of key `k`. -/
def counterLookup? (items : List (Str × Nat)) (k : Str) : Option Nat :=
  (items.find? (fun p => p.1 = k)).map (fun p => p.2)

theorem counterLookup_mapBump (k k' : Str) :
    ∀ items : List (Str × Nat),
      counterLookup? (items.map (fun p => if p.1 = k then (p.1, p.2 + 1) else p)) k' =
        if k' = k then (counterLookup? items k).map (fun v => v + 1)
        else counterLookup? items k' := by
  intro items
  induction items with
  | nil => by_cases h : k' = k <;> simp [counterLookup?, h]
  | cons q qs ih =>
    by_cases hqk : q.1 = k
    · by_cases hk : k' = k
      · rw [if_pos hk]
        unfold counterLookup?
        rw [List.map_cons, if_pos hqk,
          List.find?_cons_of_pos _ (by simp [hqk, hk]),
          List.find?_cons_of_pos _ (by simp [hqk, hk])]
        rfl
      · rw [if_neg hk]
        have hq' : ¬(q.1 = k') := fun e => hk (by rw [← e, hqk])
        unfold counterLookup?
        rw [List.map_cons, if_pos hqk,
          List.find?_cons_of_neg _ (by simp [hq']),
          List.find?_cons_of_neg _ (by simp [hq'])]
        have := ih
        rw [if_neg hk] at this
        exact this
    · by_cases hq' : q.1 = k'
      · have hk : ¬(k' = k) := fun e => hqk (by rw [hq', e])
        rw [if_neg hk]
        unfold counterLookup?
        rw [List.map_cons, if_neg hqk,
          List.find?_cons_of_pos _ (by simp [hq']),
          List.find?_cons_of_pos _ (by simp [hq'])]
      · unfold counterLookup?
        rw [List.map_cons, if_neg hqk,
          List.find?_cons_of_neg _ (by simp [hq'])]
        by_cases hk : k' = k
        · rw [if_pos hk]
          rw [List.find?_cons_of_neg _ (by simp [hqk])]
          have := ih
          rw [if_pos hk] at this
          exact this
        · rw [if_neg hk, List.find?_cons_of_neg _ (by simp [hq'])]
          have := ih
          rw [if_neg hk] at this
          exact this

theorem counterLookup_append_new (k k' : Str) (items : List (Str × Nat)) :
    counterLookup? (items ++ [(k, 1)]) k' =
      match counterLookup? items k' with
      | some v => some v
      | none => if k' = k then some 1 else none := by
  unfold counterLookup?
  rw [List.find?_append]
  cases hfind : items.find? (fun p => p.1 = k') with
  | some q => simp
  | none =>
    by_cases h : k' = k
    · rw [List.find?_cons_of_pos _ (by simp [h])]
      simp [h]
    · rw [List.find?_cons_of_neg _ ?hne]
      · simp [h]
      · simp only [decide_eq_true_eq]
        exact fun e => h e.symm

theorem counterBump_lookup (items : List (Str × Nat)) (k k' : Str) :
    counterLookup? (counterBump items k) k' =
      if k' = k then some ((counterLookup? items k).getD 0 + 1)
      else counterLookup? items k' := by
  unfold counterBump
  by_cases hany : items.any (fun p => p.1 = k)
  · rw [if_pos hany, counterLookup_mapBump]
    by_cases h : k' = k
    · rw [if_pos h, if_pos h]
      have hex : ∃ q ∈ items, q.1 = k := by
        have := List.any_eq_true.mp hany
        simpa using this
      obtain ⟨q, hq, hqk⟩ := hex
      cases hf : counterLookup? items k with
      | none =>
        exfalso
        unfold counterLookup? at hf
        cases hff : items.find? (fun p => p.1 = k) with
        | some _ => rw [hff] at hf; cases hf
        | none => exact (List.find?_eq_none.mp hff) q hq (by simp [hqk])
      | some v => simp [hf]
    · rw [if_neg h, if_neg h]
  · rw [if_neg hany, counterLookup_append_new]
    by_cases h : k' = k
    · subst h
      have hfnone : items.find? (fun p => p.1 = k') = none := by
        rw [List.find?_eq_none]
        intro q hq
        simp only [decide_eq_true_eq]
        exact fun hqk => hany (List.any_eq_true.mpr ⟨q, hq, by simp [hqk]⟩)
      have hnone : counterLookup? items k' = none := by
        unfold counterLookup?
        rw [hfnone]
        rfl
      rw [hnone]
      simp
    · cases hf : counterLookup? items k' <;> simp [h, hf]

theorem touchCount_cons (l : Str) (rest : List Str) (k : Str) :
    touchCount (l :: rest) k =
      (if pyStrip l ≠ [] ∧ pyStrip l = k then 1 else 0) + touchCount rest k := rfl

theorem counterFold_lookup (k : Str) :
    ∀ (lines : List Str) (acc : List (Str × Nat)),
      counterLookup? (List.foldl counterStep acc lines) k =
        match counterLookup? acc k with
        | some v => some (v + touchCount lines k)
        | none => if touchCount lines k = 0 then none
                  else some (touchCount lines k) := by
  intro lines
  induction lines with
  | nil =>
    intro acc
    cases h : counterLookup? acc k <;> simp [touchCount, h]
  | cons l rest ih =>
    intro acc
    rw [List.foldl_cons]
    show counterLookup? (List.foldl counterStep (counterStep acc l) rest) k = _
    rw [ih (counterStep acc l)]
    unfold counterStep
    by_cases hb : pyStrip l = []
    · rw [if_pos hb]
      have ht : touchCount (l :: rest) k = touchCount rest k := by
        rw [touchCount_cons, if_neg (fun hcon => hcon.1 hb), Nat.zero_add]
      rw [ht]
    · rw [if_neg hb, counterBump_lookup]
      by_cases hk : k = pyStrip l
      · have ht : touchCount (l :: rest) k = 1 + touchCount rest k := by
          rw [touchCount_cons, if_pos ⟨hb, hk.symm⟩]
        rw [ht, if_pos hk, ← hk]
        cases hacc : counterLookup? acc k with
        | none => simp
        | some v => simp [Nat.add_assoc, Nat.add_comm 1 (touchCount rest k)]
      · have ht : touchCount (l :: rest) k = touchCount rest k := by
          rw [touchCount_cons, if_neg (fun hcon => hk hcon.2.symm), Nat.zero_add]
        rw [ht, if_neg hk]

theorem counterItems_lookup (lines : List Str) (k : Str) :
    counterLookup? (counterItems lines) k =
      if touchCount lines k = 0 then none else some (touchCount lines k) := by
  have h := counterFold_lookup k lines []
  simpa [counterItems, counterLookup?] using h

theorem counterBump_keys (items : List (Str × Nat)) (k : Str) :
    (counterBump items k).map Prod.fst =
      if items.any (fun p => p.1 = k) then items.map Prod.fst
      else items.map Prod.fst ++ [k] := by
  unfold counterBump
  by_cases h : items.any (fun p => p.1 = k)
  · rw [if_pos h, if_pos h, List.map_map]
    apply List.map_congr_left
    intro p _
    by_cases hp : p.1 = k <;> simp [hp]
  · rw [if_neg h, if_neg h, List.map_append]
    rfl

theorem counterFold_keys_nodup :
    ∀ (lines : List Str) (acc : List (Str × Nat)), (acc.map Prod.fst).Nodup →
      ((List.foldl counterStep acc lines).map Prod.fst).Nodup := by
  intro lines
  induction lines with
  | nil => intro acc h; exact h
  | cons l rest ih =>
    intro acc h
    rw [List.foldl_cons]
    apply ih
    unfold counterStep
    by_cases hb : pyStrip l = []
    · rw [if_pos hb]; exact h
    · rw [if_neg hb, counterBump_keys]
      by_cases hany : acc.any (fun p => p.1 = pyStrip l)
      · rw [if_pos hany]; exact h
      · rw [if_neg hany]
        rw [List.nodup_append]
        refine ⟨h, List.nodup_singleton _, ?_⟩
        intro x hx hx1
        rcases List.mem_map.mp hx with ⟨q, hq, hq1⟩
        have hxl : x = pyStrip l := by simpa using hx1
        exact hany (List.any_eq_true.mpr ⟨q, hq, by simp [hq1, hxl]⟩)

theorem lookup_of_mem_nodup :
    ∀ items : List (Str × Nat), (items.map Prod.fst).Nodup →
      ∀ p ∈ items, counterLookup? items p.1 = some p.2 := by
  intro items
  induction items with
  | nil => intro _ p hp; cases hp
  | cons q qs ih =>
    intro hnd p hp
    rw [List.map_cons, List.nodup_cons] at hnd
    unfold counterLookup?
    rcases List.mem_cons.mp hp with he | hm
    · subst he
      rw [List.find?_cons_of_pos _ (by simp)]
      rfl
    · by_cases hq : q.1 = p.1
      · exact absurd (hq ▸ List.mem_map_of_mem Prod.fst hm) hnd.1
      · rw [List.find?_cons_of_neg _ (by simp [hq])]
        exact ih hnd.2 p hm

/-! ## Stability of the descending sort -/

theorem filter_orderedInsert_pos (a : Str × Nat) (c : Nat) (h : a.2 = c) :
    ∀ l : List (Str × Nat),
      (List.orderedInsert countGE a l).filter (fun p => p.2 = c) =
        a :: l.filter (fun p => p.2 = c) := by
  intro l
  induction l with
  | nil => simp [List.orderedInsert, List.filter_cons, h]
  | cons b bl ih =>
    rw [List.orderedInsert]
    by_cases hr : countGE a b
    · rw [if_pos hr]
      rw [List.filter_cons, if_pos (by simp [h])]
    · rw [if_neg hr]
      have hbc : ¬(b.2 = c) := by
        unfold countGE at hr
        omega
      rw [List.filter_cons, if_neg (by simp [hbc]), ih,
        List.filter_cons, if_neg (by simp [hbc])]

theorem filter_orderedInsert_neg (a : Str × Nat) (c : Nat) (h : ¬(a.2 = c)) :
    ∀ l : List (Str × Nat),
      (List.orderedInsert countGE a l).filter (fun p => p.2 = c) =
        l.filter (fun p => p.2 = c) := by
  intro l
  induction l with
  | nil => simp [List.orderedInsert, List.filter_cons, h]
  | cons b bl ih =>
    rw [List.orderedInsert]
    by_cases hr : countGE a b
    · rw [if_pos hr]
      rw [List.filter_cons, if_neg (by simp [h])]
    · rw [if_neg hr]
      by_cases hb : b.2 = c
      · rw [List.filter_cons, if_pos (by simp [hb]), ih,
          List.filter_cons, if_pos (by simp [hb])]
      · rw [List.filter_cons, if_neg (by simp [hb]), ih,
          List.filter_cons, if_neg (by simp [hb])]

theorem insertionSort_filter_stable (c : Nat) :
    ∀ items : List (Str × Nat),
      (List.insertionSort countGE items).filter (fun p => p.2 = c) =
        items.filter (fun p => p.2 = c) := by
  intro items
  induction items with
  | nil => rfl
  | cons a l ih =>
    rw [List.insertionSort]
    by_cases h : a.2 = c
    · rw [filter_orderedInsert_pos a c h, ih, List.filter_cons, if_pos (by simp [h])]
    · rw [filter_orderedInsert_neg a c h, ih, List.filter_cons, if_neg (by simp [h])]

/-! ## Lemmas about the file-stats loop -/

theorem fileStatLoop_cons (fs : Str → FsProbe) (p : Str × Nat) (rest : List (Str × Nat)) :
    fileStatLoop fs (p :: rest) =
      match fs p.1 with
      | .present n => { filename := p.1, changes := p.2, size_bytes := n } ::
          fileStatLoop fs rest
      | .absent => fileStatLoop fs rest
      | .ioError => { filename := p.1, changes := p.2, size_bytes := 0 } ::
          fileStatLoop fs rest := rfl

theorem fileStatLoop_mem (fs : Str → FsProbe) :
    ∀ (pairs : List (Str × Nat)) (e : FileStat), e ∈ fileStatLoop fs pairs →
      (e.filename, e.changes) ∈ pairs
        ∧ (fs e.filename = FsProbe.present e.size_bytes
            ∨ (fs e.filename = FsProbe.ioError ∧ e.size_bytes = 0)) := by
  intro pairs
  induction pairs with
  | nil => intro e he; cases he
  | cons p rest ih =>
    intro e he
    cases hfs : fs p.1 with
    | present n =>
      rw [fileStatLoop_cons] at he
      simp only [hfs] at he
      rcases List.mem_cons.mp he with he1 | hm
      · subst he1
        exact ⟨List.mem_cons_self _ _, Or.inl hfs⟩
      · obtain ⟨h1, h2⟩ := ih e hm
        exact ⟨List.mem_cons_of_mem _ h1, h2⟩
    | absent =>
      rw [fileStatLoop_cons] at he
      simp only [hfs] at he
      obtain ⟨h1, h2⟩ := ih e he
      exact ⟨List.mem_cons_of_mem _ h1, h2⟩
    | ioError =>
      rw [fileStatLoop_cons] at he
      simp only [hfs] at he
      rcases List.mem_cons.mp he with he1 | hm
      · subst he1
        exact ⟨List.mem_cons_self _ _, Or.inr ⟨hfs, rfl⟩⟩
      · obtain ⟨h1, h2⟩ := ih e hm
        exact ⟨List.mem_cons_of_mem _ h1, h2⟩

theorem fileStatLoop_pairwise (fs : Str → FsProbe) :
    ∀ pairs : List (Str × Nat), List.Pairwise countGE pairs →
      List.Pairwise (fun x y : FileStat => y.changes ≤ x.changes)
        (fileStatLoop fs pairs) := by
  intro pairs
  induction pairs with
  | nil => intro _; exact List.Pairwise.nil
  | cons p rest ih =>
    intro hp
    rw [List.pairwise_cons] at hp
    have hrest := ih hp.2
    have hhead : ∀ e ∈ fileStatLoop fs rest, e.changes ≤ p.2 := by
      intro e he
      exact hp.1 (e.filename, e.changes) (fileStatLoop_mem fs rest e he).1
    rw [fileStatLoop_cons]
    cases hfs : fs p.1 with
    | present n =>
      exact List.pairwise_cons.mpr ⟨fun e he => hhead e he, hrest⟩
    | absent => exact hrest
    | ioError =>
      exact List.pairwise_cons.mpr ⟨fun e he => hhead e he, hrest⟩

theorem fileStatLoop_length (fs : Str → FsProbe) :
    ∀ pairs : List (Str × Nat), (fileStatLoop fs pairs).length ≤ pairs.length := by
  intro pairs
  induction pairs with
  | nil => exact Nat.le_refl 0
  | cons p rest ih =>
    rw [fileStatLoop_cons]
    cases hfs : fs p.1 with
    | present n => dsimp only; rw [List.length_cons, List.length_cons]; omega
    | absent => dsimp only; rw [List.length_cons]; omega
    | ioError => dsimp only; rw [List.length_cons, List.length_cons]; omega

/-- **C5 (amended/corrected).** The file-activity statistics are drawn from
the top-20 paths of the stable descending-by-count ranking of the
`--name-only` counter: every emitted entry carries a counted path with its
exact change count — the number of non-blank reported lines naming it — and
either the probed size of an existing file or size 0 when the probe raises;
a path whose file no longer exists is *omitted* (not reported with size 0,
as the claim states — see the counterexample); the emitted entries are in
descending change-count order, at most 20, and the ranking is stable: for
each count value the ranked paths keep their first-seen counter order. -/
theorem file_change_stats_ranking (fs : Str → FsProbe) (lines : List Str) :
    (∀ e ∈ get_file_change_stats fs lines,
        (e.filename, e.changes) ∈ counterItems lines
          ∧ e.changes = touchCount lines e.filename
          ∧ (fs e.filename = FsProbe.present e.size_bytes
              ∨ (fs e.filename = FsProbe.ioError ∧ e.size_bytes = 0))
          ∧ fs e.filename ≠ FsProbe.absent)
    ∧ List.Pairwise (fun x y : FileStat => y.changes ≤ x.changes)
        (get_file_change_stats fs lines)
    ∧ (get_file_change_stats fs lines).length ≤ 20
    ∧ (∀ c : Nat,
        (List.insertionSort countGE (counterItems lines)).filter (fun p => p.2 = c) =
          (counterItems lines).filter (fun p => p.2 = c)) := by
  refine ⟨?_, ?_, ?_, fun c => insertionSort_filter_stable c (counterItems lines)⟩
  · intro e he
    unfold get_file_change_stats at he
    obtain ⟨hmem, hsize⟩ := fileStatLoop_mem fs _ e he
    have hmemCI : (e.filename, e.changes) ∈ counterItems lines := by
      have h1 : (e.filename, e.changes) ∈ List.insertionSort countGE (counterItems lines) :=
        (List.take_sublist 20 _).mem hmem
      exact (List.perm_insertionSort countGE (counterItems lines)).mem_iff.mp h1
    refine ⟨hmemCI, ?_, hsize, ?_⟩
    · have hnd : ((counterItems lines).map Prod.fst).Nodup :=
        counterFold_keys_nodup lines [] (by simp)
      have hlk := lookup_of_mem_nodup (counterItems lines) hnd (e.filename, e.changes) hmemCI
      rw [counterItems_lookup] at hlk
      by_cases h0 : touchCount lines e.filename = 0
      · rw [if_pos h0] at hlk; cases hlk
      · rw [if_neg h0] at hlk
        exact (Option.some.injEq _ _ ▸ hlk).symm
    · rcases hsize with hpr | ⟨hio, _⟩
      · rw [hpr]; intro hcon; cases hcon
      · rw [hio]; intro hcon; cases hcon
  · unfold get_file_change_stats
    apply fileStatLoop_pairwise
    exact List.Pairwise.sublist (List.take_sublist 20 _)
      (List.sorted_insertionSort countGE (counterItems lines))
  · unfold get_file_change_stats
    refine Nat.le_trans (fileStatLoop_length fs _) ?_
    unfold mostCommon
    rw [List.length_take]
    exact inf_le_left

/-- **C5 (counterexample).** With one reported path whose file no longer
exists, the counter holds the path with count 1 but the statistics list is
empty — the vanished file is dropped, not reported with size 0; size 0 only
appears when the size probe raises. -/
theorem vanished_file_dropped_counterexample :
    counterItems ["a.txt".data] = [("a.txt".data, 1)]
    ∧ get_file_change_stats (fun _ => FsProbe.absent) ["a.txt".data] = []
    ∧ get_file_change_stats (fun _ => FsProbe.ioError) ["a.txt".data] =
        [⟨"a.txt".data, 1, 0⟩] := by
  refine ⟨by decide, by decide, by decide⟩

/-- **C2 (amended/corrected).** The basic changelog is the header line naming
the version (or `Unreleased`) and the current date, a blank line, and then
one section per non-empty category — a category with zero commits produces no
section — in the *renderer's* order: features, fixes, performance,
refactoring, docs, style, tests, chores, CI/CD, build, reverts, other (the
claim's §3 order, with chores before performance, is refuted by the separate
counterexample) — each section being the title, one
`- {subject} ([{hash}]) by {author}` bullet per commit in arrival order, and
a trailing blank line. -/
theorem basic_changelog_layout (commits : List CommitRecord) (version : Option Str)
    (today : Str) :
    generate_basic_changelog commits version today =
      joinNl (headerLine version today :: "".data ::
        (renderSections.map (fun kt =>
          sectionLines kt.2 (commits.filter (fun c => bucketKey c = kt.1)))).flatten) :=
  generate_basic_changelog_eq commits version today

/-! ## Witnesses -/

/-- Witness for C1: concrete instance with tag `feat` and subject
`add login`. -/
theorem type_tag_extraction_witness :
    extractType ('[' :: ("feat".data ++ ']' :: (' ' :: "add login".data))) =
      (pyLower "feat".data, "add login".data)
    ∧ guiCommitType ('[' :: ("feat".data ++ ']' :: (' ' :: "add login".data))) =
      pyLower "feat".data :=
  ⟨(type_tag_extraction "feat".data "add login".data (by decide) (by decide) (by decide)).1,
   (type_tag_extraction "feat".data "add login".data (by decide) (by decide) (by decide)).2.1⟩

/-- Witness for C4: a malformed date field falls back to the clock value and
the single embedded space is normalized to `T`. -/
theorem gui_date_parsing_witness :
    get_commit_history (fun _ => none) 5
        ["h".data ++ '|' :: ("A".data ++ '|' :: ("e".data ++ '|' ::
          ("2024-01-01 bad".data ++ '|' :: "s".data)))] =
      [⟨"h".data, "A".data, "e".data, guiParseDate (fun _ => none) 5 "2024-01-01 bad".data,
        "s".data, "".data, guiCommitType "s".data⟩]
    ∧ guiParseDate (fun _ => none) 5 "2024-01-01 bad".data = ⟨5, none⟩
    ∧ pyReplaceAll ' ' 'T' "2024-01-01 bad".data = "2024-01-01".data ++ 'T' :: "bad".data := by
  have h := gui_date_parsing (fun _ => none) 5 "h".data "A".data "e".data
    "2024-01-01 bad".data "s".data (by decide) (by decide) (by decide) (by decide) (by decide)
  exact ⟨h.1, h.2.1 rfl,
    h.2.2.2 "2024-01-01".data "bad".data (by decide) (by decide) (by decide)⟩

/-- Witness for C5: one existing counted file is emitted with its count and
size, within the length bound. -/
theorem file_change_stats_ranking_witness :
    ("a.txt".data, 1) ∈ counterItems ["a.txt".data]
    ∧ (1 : Nat) = touchCount ["a.txt".data] "a.txt".data
    ∧ (get_file_change_stats (fun _ => FsProbe.present 7) ["a.txt".data]).length ≤ 20 := by
  have h := file_change_stats_ranking (fun _ => FsProbe.present 7) ["a.txt".data]
  have he : (⟨"a.txt".data, 1, 7⟩ : FileStat) ∈
      get_file_change_stats (fun _ => FsProbe.present 7) ["a.txt".data] := by decide
  obtain ⟨h1, h2, _, _⟩ := h.1 _ he
  exact ⟨h1, h2, h.2.2.1⟩

/-- Witness for C6: the spec's example line parses to one record; a line
without enough fields is dropped. -/
theorem parser_field_splitting_witness :
    parse_commits ["a1b2c3".data ++ '|' :: ("2024-01-01".data ++ '|' ::
        ("Alice".data ++ '|' :: "[feat] add login".data))] =
      [⟨"a1b2c3".data, "2024-01-01".data, "Alice".data,
        (extractType "[feat] add login".data).2, (extractType "[feat] add login".data).1⟩]
    ∧ parse_commits ["nopipe".data] = [] := by
  have h := parser_field_splitting
  exact ⟨h.1 _ _ _ _ (by decide) (by decide) (by decide), h.2.1 "nopipe".data (by decide)⟩

/-- Witness for C7: two identical runs over an empty input coincide and give
exactly the header. -/
theorem basic_changelog_deterministic_witness :
    generate_basic_changelog [] none "2026-10-12".data =
      generate_basic_changelog [] none "2026-10-12".data
    ∧ generate_basic_changelog [] none "2026-10-12".data =
        "## Unreleased - 2026-10-12\n".data :=
  ⟨(basic_changelog_deterministic [] [] none none "2026-10-12".data "2026-10-12".data
      rfl rfl rfl).1,
   (basic_changelog_deterministic [] [] none none "2026-10-12".data "2026-10-12".data
      rfl rfl rfl).2.2⟩

/-- Witness for C8: both degraded paths return the basic changelog for one
concrete commit. -/
theorem ai_changelog_fallback_witness :
    generate_ai_changelog none
        [⟨"h".data, "d".data, "A".data, "m".data, "feat".data⟩] none "2026-10-12".data =
      generate_basic_changelog
        [⟨"h".data, "d".data, "A".data, "m".data, "feat".data⟩] none "2026-10-12".data
    ∧ generate_ai_changelog (some (fun _ => AiResult.failed))
        [⟨"h".data, "d".data, "A".data, "m".data, "feat".data⟩] none "2026-10-12".data =
      generate_basic_changelog
        [⟨"h".data, "d".data, "A".data, "m".data, "feat".data⟩] none "2026-10-12".data := by
  have h := ai_changelog_fallback
    [⟨"h".data, "d".data, "A".data, "m".data, "feat".data⟩] none "2026-10-12".data (by decide)
  exact ⟨h.1, h.2 (fun _ => AiResult.failed) rfl⟩

/-- Witness for C9: appending over an existing `CHANGELOG.md` prepends the
new entry and returns `True`; the I/O-failure path returns `False`. -/
theorem save_changelog_spec_witness :
    (save_changelog (fun _ => some "old".data) false "new".data "CHANGELOG.md".data true).1
        "CHANGELOG.md".data = some ("new".data ++ "\n\n".data ++ "old".data)
    ∧ (save_changelog (fun _ => some "old".data) false "new".data "CHANGELOG.md".data
        true).2 = true
    ∧ save_changelog (fun _ => some "old".data) true "new".data "CHANGELOG.md".data true =
        ((fun _ => some "old".data), false) := by
  have h := save_changelog_spec (fun _ => some "old".data) "new".data "CHANGELOG.md".data
    "x".data true "old".data
  obtain ⟨h1, h2⟩ := h.1 rfl
  exact ⟨h1, h2, h.2.2.2⟩

/-- Witness for C10: the concrete subject `[] tidy` and a record typed with
the empty string. -/
theorem empty_bracket_type_witness :
    extractType ('[' :: ']' :: " tidy".data) = ([], pyStrip " tidy".data)
    ∧ bucketKey ⟨"h".data, "d".data, "A".data, "m".data, []⟩ = "other".data := by
  have h := empty_bracket_type " tidy".data
    ⟨"h".data, "d".data, "A".data, "m".data, []⟩ rfl
  exact ⟨h.1, h.2.2.1⟩

end Gitt
